import Mathlib

/-!
Shallow embedding of the retrieval core of the Govt Scheme Advisor
(`build_data.py` offline pipeline and `app.py` online query handler).

Python strings are modelled as `List Char`; floating-point similarity
scores are modelled as exact rationals `ℚ` (the gate and ordering logic
only compares scores, so the exact-arithmetic model preserves it).
External capabilities (the sentence-embedding encoder, the faiss
inner-product index search, the generative model call) are modelled
from the spec as explicit parameters or executable definitions, marked
`Modelled from the spec:` in their doc comments.
-/

/-- ASCII whitespace recognised by Python's `\s` (the corpus-relevant
subset; `re.sub(r"\s+", " ", s)` in `build_data.py` `clean_text`). -/
def isPyWS (c : Char) : Bool :=
  c == ' ' || c == '\t' || c == '\n' || c == '\r' || c == '\x0b' || c == '\x0c'

/-- `s.replace("\x00", " ")` from `clean_text` (build_data.py line 22). -/
def replaceNul (s : List Char) : List Char :=
  s.map fun c => if c == '\x00' then ' ' else c

/-- Worker for `collapseWS`: the flag records whether the previous
character was whitespace (so a whole run emits a single space). -/
def collapseGo : Bool → List Char → List Char
  | _, [] => []
  | prevWS, c :: cs =>
    if isPyWS c then
      if prevWS then collapseGo true cs
      else ' ' :: collapseGo true cs
    else c :: collapseGo false cs

/-- `re.sub(r"\s+", " ", s)`: every maximal run of whitespace becomes a
single space (build_data.py line 23). -/
def collapseWS (s : List Char) : List Char := collapseGo false s

/-- Python `str.strip()`: drop whitespace from both ends. -/
def pyStrip (s : List Char) : List Char :=
  ((s.dropWhile isPyWS).reverse.dropWhile isPyWS).reverse

/-- `clean_text` from build_data.py lines 21-24: replace null bytes with
spaces, collapse whitespace runs to a single space, strip the ends. -/
def clean_text (s : List Char) : List Char :=
  pyStrip (collapseWS (replaceNul s))

/-- Python `str.lower()` (ASCII-relevant part). -/
def lower (s : List Char) : List Char := s.map Char.toLower

/-- Python's substring test `needle in hay` for strings. -/
def hasSub (needle hay : List Char) : Bool :=
  hay.tails.any fun t => needle.isPrefixOf t

/-- The `while start < len(text)` loop of `chunk_text` (build_data.py
lines 34-42), written with explicit fuel so that it is structurally
recursive and computable by the kernel.  In the source,
`end = min(len(text), start + max_chars)`; the two branches of the `min`
are written as an `if` here: when `len(text) <= start + max_chars` the
window reaches the end of the text and the loop breaks after appending
`text[start:end]`; otherwise the window is exactly `max_chars` long and
the next start is `max(0, end - overlap)` (truncated subtraction on
`Nat` is exactly Python's `max(0, ·)`).  The source loop carries no
fuel; `chunkLoop` below runs this worker with fuel `len - start`, which
theorem `chunkLoopF_fuel_stable` proves sufficient whenever
`overlap < max_chars` — in particular for the only parameters the repo
ever passes, the defaults `max_chars = 1400`, `overlap = 200`. -/
def chunkLoopF (text : List Char) (max_chars overlap : Nat) :
    Nat → Nat → List (List Char)
  | _start, 0 => []
  | start, fuel + 1 =>
    if start < text.length then
      if text.length ≤ start + max_chars then
        [(text.drop start).take (text.length - start)]
      else
        (text.drop start).take max_chars ::
          chunkLoopF text max_chars overlap (start + max_chars - overlap) fuel
    else []

/-- The sliding-window loop of `chunk_text`, started at `start`. -/
def chunkLoop (text : List Char) (max_chars overlap start : Nat) :
    List (List Char) :=
  chunkLoopF text max_chars overlap start (text.length - start)

/-- The (start, end) windows produced by the loop of `chunk_text`, used
to state coverage: `chunkLoop` returns exactly the slices of these
intervals (theorem `chunkLoop_eq_map_intervals`). -/
def chunkIntervalsF (len max_chars overlap : Nat) :
    Nat → Nat → List (Nat × Nat)
  | _start, 0 => []
  | start, fuel + 1 =>
    if start < len then
      if len ≤ start + max_chars then [(start, len)]
      else (start, start + max_chars) ::
        chunkIntervalsF len max_chars overlap (start + max_chars - overlap) fuel
    else []

/-- The windows of the loop started at `start`, with the same fuel as
`chunkLoop`. -/
def chunkIntervals (len max_chars overlap start : Nat) : List (Nat × Nat) :=
  chunkIntervalsF len max_chars overlap start (len - start)

/-- `chunk_text` from build_data.py lines 27-42: clean the text; empty
cleaned text gives no chunks; text fitting in one window is emitted
whole; otherwise run the sliding-window loop from position 0. -/
def chunk_text (text : List Char) (max_chars overlap : Nat) :
    List (List Char) :=
  if (clean_text text).isEmpty then []
  else if (clean_text text).length ≤ max_chars then [clean_text text]
  else chunkLoop (clean_text text) max_chars overlap 0

/-! ## Data model (spec section 3, columns of `meta.parquet`) -/

/-- A row of the metadata store `meta.parquet`
(build_data.py lines 70-78). -/
structure MetaRow where
  doc_id : List Char
  file_name : List Char
  page_no : Nat
  chunk_no : Nat
  text : List Char
deriving DecidableEq, Inhabited

/-- An evidence item as assembled by `retrieve` (app.py lines 62-70). -/
structure Evidence where
  score : ℚ
  doc_id : List Char
  file_name : List Char
  page_no : Nat
  text : List Char
deriving DecidableEq, Inhabited

/-- A scheme link entry of `scheme_links.json` (fields used by
`match_links_from_evidence`, app.py lines 88-109). -/
structure Scheme where
  scheme_id : List Char
  scheme_name : List Char
  state : List Char
  apply_link : List Char
  source_links : List (List Char)
  doc_ids : List (List Char)
  file_names : List (List Char)
deriving DecidableEq, Inhabited

/-! ## Retrieval (app.py lines 54-71) -/

/-- Inner product of two vectors (exact rationals in place of floats). -/
def dot (q v : List ℚ) : ℚ := ((q.zip v).map fun p => p.1 * p.2).sum

/-- Insert an (index, score) pair into a list kept in descending score
order. -/
def insertDesc (p : Nat × ℚ) : List (Nat × ℚ) → List (Nat × ℚ)
  | [] => [p]
  | q :: qs => if q.2 ≤ p.2 then p :: q :: qs else q :: insertDesc p qs

/-- Sort (index, score) pairs by descending score. -/
def sortDesc (l : List (Nat × ℚ)) : List (Nat × ℚ) := l.foldr insertDesc []

/-- Modelled from the spec: the external vector index's exact
inner-product top-K search (`faiss.IndexFlatIP.search`, called at
app.py line 57), which the code treats as a black box.  Per the spec's
build/retrieve contracts it scores every stored vector against the
query and returns the top K `(index, score)` pairs in descending score
order. -/
def indexSearch (vecs : List (List ℚ)) (q : List ℚ) (top_k : Nat) :
    List (Nat × ℚ) :=
  (sortDesc ((vecs.map (dot q)).enum)).take top_k

/-- The dictionary built for one search hit (app.py lines 62-70): the
score from the search, the remaining fields joined from the metadata
row at the returned index position. -/
def evidenceOfRow (s : ℚ) (row : MetaRow) : Evidence :=
  ⟨s, row.doc_id, row.file_name, row.page_no, row.text⟩

/-- `retrieve` from app.py lines 54-71: search the index with the
encoded query, then join each returned position against the metadata
store by position (`meta.iloc[int(idx)]`). -/
def retrieve (vecs : List (List ℚ)) (meta : List MetaRow) (qvec : List ℚ)
    (top_k : Nat) : List Evidence :=
  (indexSearch vecs qvec top_k).map fun p =>
    evidenceOfRow p.2 (meta.getD p.1 default)

/-! ## Link matching (app.py lines 78-111) -/

/-- The per-entry matching rules of `match_links_from_evidence`
(app.py lines 88-109): `doc_id` equality, else `file_name` equality,
else non-empty `scheme_name` as a substring of an evidence file name —
all case-insensitive, first match wins. -/
def schemeFound (ev_doc_ids ev_files : List (List Char)) (s : Scheme) :
    Bool :=
  let doc_ids := s.doc_ids.map lower
  let file_names := s.file_names.map lower
  if !doc_ids.isEmpty && doc_ids.any (fun d => ev_doc_ids.contains d) then
    true
  else if !file_names.isEmpty && file_names.any (fun f => ev_files.contains f) then
    true
  else
    let scheme_name := lower s.scheme_name
    !scheme_name.isEmpty && ev_files.any (fun f => hasSub scheme_name f)

/-- `match_links_from_evidence` from app.py lines 78-111: empty links
database short-circuits to `[]`; otherwise keep, in order, the entries
whose rules match the lowercased evidence doc ids / file names (the
source's append-in-a-loop is a filter).  Python's evidence sets are
modelled as lists used only through membership. -/
def match_links_from_evidence (links_db : List Scheme)
    (evidence : List Evidence) : List Scheme :=
  if links_db.isEmpty then []
  else
    links_db.filter
      (schemeFound (evidence.map fun e => lower e.doc_id)
        (evidence.map fun e => lower e.file_name))

/-- The three matching rules exactly as the spec words them (a plain
disjunction over the evidence, one disjunct per rule), used to state
that the source's `elif` chain computes the same filter. -/
def ruleMatchSpec (evidence : List Evidence) (s : Scheme) : Bool :=
  (s.doc_ids.any fun d => evidence.any fun e => lower d == lower e.doc_id) ||
  (s.file_names.any fun f => evidence.any fun e => lower f == lower e.file_name) ||
  (!(lower s.scheme_name).isEmpty &&
    evidence.any fun e => hasSub (lower s.scheme_name) (lower e.file_name))

/-! ## Confidence gate and answerer (app.py lines 118-161, 187-224) -/

/-- `MIN_SCORE = 0.22` (app.py line 187), as an exact rational. -/
def MIN_SCORE : ℚ := 22 / 100

/-- `best_score = evidence[0]["score"] if evidence else 0.0`
(app.py line 202). -/
def best_score : List Evidence → ℚ
  | [] => 0
  | e :: _ => e.score

/-- The fixed message returned when the credential is absent
(app.py line 121). -/
def GEMINI_MISSING_MSG : List Char :=
  "❌ GEMINI_API_KEY missing. Add it to .env".toList

/-- `llm_answer` from app.py lines 118-161.  The external generative
call is a parameter: `Except exc (Option text)` models
`model.generate_content` either raising (`error exc`, which the source
does not catch) or returning a response whose `.text` may be `None`
(`(resp.text or "").strip()`).  A missing credential returns the fixed
message as a normal value. -/
def llm_answer (api_key : Option (List Char))
    (call : Except (List Char) (Option (List Char))) :
    Except (List Char) (List Char) :=
  match api_key with
  | none => Except.ok GEMINI_MISSING_MSG
  | some _ => call.map fun t => pyStrip (t.getD [])

/-- Outcome of one press of "Find schemes" (app.py lines 189-224):
the NOT FOUND short-circuit carrying the best score, the normal path
showing the answer and the matched links, or an uncaught exception from
the external call (which aborts the run before link matching). -/
inductive Outcome where
  | notFound (best : ℚ)
  | shown (answer : List Char) (links : List Scheme)
  | crashed (exc : List Char)
deriving DecidableEq

/-- The query handler after `retrieve` (app.py lines 200-224): compute
the best score, short-circuit to NOT FOUND when the evidence is empty
or the best score is below `MIN_SCORE` (`st.error`/`st.stop`), else get
the narrative answer and then the deterministic links. -/
def handle_query (api_key : Option (List Char))
    (call : Except (List Char) (Option (List Char)))
    (links_db : List Scheme) (evidence : List Evidence) : Outcome :=
  if evidence = [] ∨ best_score evidence < MIN_SCORE then
    Outcome.notFound (best_score evidence)
  else
    match llm_answer api_key call with
    | Except.error exc => Outcome.crashed exc
    | Except.ok answer =>
        Outcome.shown answer (match_links_from_evidence links_db evidence)

/-! ## Index loading (app.py lines 34-40) -/

/-- The `RuntimeError` message of `load_index_and_meta`
(app.py line 37). -/
def INDEX_NOT_BUILT_MSG : List Char :=
  "Index not found. Run: py build_data.py".toList

/-- `load_index_and_meta` from app.py lines 34-40: if either persisted
artifact is missing, raise the remediation error; otherwise read and
return both (the reads are modelled as succeeding — the claim under
check concerns only the missing-artifact path). -/
def load_index_and_meta (faissIndexExists metaParquetExists : Bool)
    (index : List (List ℚ)) (meta : List MetaRow) :
    Except (List Char) (List (List ℚ) × List MetaRow) :=
  if !faissIndexExists || !metaParquetExists then
    Except.error INDEX_NOT_BUILT_MSG
  else Except.ok (index, meta)

/-! ## Offline build (build_data.py lines 56-100) -/

/-- A source PDF as `main` sees it: `pdf.stem`, `pdf.name`, and the
pages returned by `parse_pdf` — (1-based page number, cleaned non-empty
page text); `parse_pdf` (lines 45-53) cleans each page's text and skips
empty pages. -/
structure SrcDoc where
  stem : List Char
  fname : List Char
  pages : List (Nat × List Char)
deriving DecidableEq, Inhabited

/-- Modelled from the spec: the external batched sentence-embedding
encoder (`SentenceTransformer.encode`, build_data.py line 88) — one
unit vector per input text, elementwise for a fixed model `f`. -/
def encode (f : List Char → List ℚ) (texts : List (List Char)) :
    List (List ℚ) :=
  texts.map f

/-- The row-building loops of `main` (build_data.py lines 64-78):
for each pdf, each page, each chunk (`enumerate(..., start=1)`), one
metadata row. -/
def buildRows (pdfs : List SrcDoc) : List MetaRow :=
  pdfs.flatMap fun pdf =>
    pdf.pages.flatMap fun pg =>
      ((chunk_text pg.2 1400 200).enum).map fun kc =>
        ⟨pdf.stem, pdf.fname, pg.1, kc.1 + 1, kc.2⟩

/-- The vectors added to the faiss index (build_data.py lines 87-91):
the encoder applied to the rows' texts, added in row order. -/
def buildIndex (f : List Char → List ℚ) (rows : List MetaRow) :
    List (List ℚ) :=
  encode f (rows.map fun r => r.text)

/-! ## Lemmas: the chunking loop -/

/-- Fuel adequacy for the window loop: whenever `overlap < max_chars`
(as with the repo's only parameters, the defaults 1400/200), the loop
exits within `text.length - start` iterations — extra fuel never
changes the result.  This is exactly the termination of the source's
fuel-free `while` loop. -/
theorem chunkLoopF_fuel_stable (text : List Char) (mc ov : Nat) (h : ov < mc) :
    ∀ fuel start extra, text.length - start ≤ fuel →
      chunkLoopF text mc ov start (fuel + extra) =
        chunkLoopF text mc ov start fuel := by
  intro fuel
  induction fuel with
  | zero =>
    intro start extra hf
    have hs : ¬ start < text.length := by omega
    cases extra with
    | zero => rfl
    | succ e => simp [chunkLoopF, hs]
  | succ n ih =>
    intro start extra hf
    have hrw : n + 1 + extra = (n + extra) + 1 := by omega
    rw [hrw]
    by_cases hs : start < text.length
    · by_cases he : text.length ≤ start + mc
      · simp [chunkLoopF, hs, he]
      · simp only [chunkLoopF, if_pos hs, if_neg he]
        rw [ih (start + mc - ov) extra (by omega)]
    · simp [chunkLoopF, hs]

/-- The loop returns exactly the slices of its (start, end) windows. -/
theorem chunkLoopF_eq_map (text : List Char) (mc ov : Nat) :
    ∀ fuel start, chunkLoopF text mc ov start fuel =
      (chunkIntervalsF text.length mc ov start fuel).map
        (fun p => (text.drop p.1).take (p.2 - p.1)) := by
  intro fuel
  induction fuel with
  | zero => intro start; rfl
  | succ n ih =>
    intro start
    by_cases hs : start < text.length
    · by_cases he : text.length ≤ start + mc
      · simp [chunkLoopF, chunkIntervalsF, hs, he]
      · simp only [chunkLoopF, chunkIntervalsF, if_pos hs, if_neg he,
          List.map_cons]
        rw [ih]
        have hmc : start + mc - start = mc := by omega
        rw [hmc]
    · simp [chunkLoopF, chunkIntervalsF, hs]

/-- Same equation through the fuel wrappers. -/
theorem chunkLoop_eq_map_intervals (text : List Char) (mc ov start : Nat) :
    chunkLoop text mc ov start =
      (chunkIntervals text.length mc ov start).map
        (fun p => (text.drop p.1).take (p.2 - p.1)) :=
  chunkLoopF_eq_map text mc ov (text.length - start) start

/-- Every position from `start` to the end of the text lies in some
window. -/
theorem chunkIntervalsF_coverage (len mc ov : Nat) (h : ov < mc) :
    ∀ fuel start i, len - start ≤ fuel → start ≤ i → i < len →
      ∃ p ∈ chunkIntervalsF len mc ov start fuel, p.1 ≤ i ∧ i < p.2 := by
  intro fuel
  induction fuel with
  | zero => intro start i hf hsi hil; omega
  | succ n ih =>
    intro start i hf hsi hil
    have hs : start < len := by omega
    by_cases he : len ≤ start + mc
    · refine ⟨(start, len), ?_, hsi, hil⟩
      simp [chunkIntervalsF, hs, he]
    · by_cases hi : i < start + mc
      · refine ⟨(start, start + mc), ?_, hsi, hi⟩
        simp [chunkIntervalsF, hs, he]
      · obtain ⟨p, hp, h1, h2⟩ := ih (start + mc - ov) i (by omega) (by omega) hil
        refine ⟨p, ?_, h1, h2⟩
        simp only [chunkIntervalsF, if_pos hs, if_neg he, List.mem_cons]
        exact Or.inr hp

/-- Every window is at most `max_chars` wide and ends within the
text. -/
theorem chunkIntervalsF_width (len mc ov : Nat) :
    ∀ fuel start, ∀ p ∈ chunkIntervalsF len mc ov start fuel,
      p.2 - p.1 ≤ mc ∧ p.2 ≤ len := by
  intro fuel
  induction fuel with
  | zero => intro start p hp; simp [chunkIntervalsF] at hp
  | succ n ih =>
    intro start p hp
    by_cases hs : start < len
    · by_cases he : len ≤ start + mc
      · simp [chunkIntervalsF, hs, he] at hp
        subst hp
        omega
      · simp only [chunkIntervalsF, if_pos hs, if_neg he, List.mem_cons] at hp
        rcases hp with hp | hp
        · subst hp; omega
        · exact ih _ p hp
    · simp [chunkIntervalsF, hs] at hp

/-- The first window of the loop started at `start` starts at
`start`. -/
theorem chunkIntervalsF_head_fst (len mc ov : Nat) :
    ∀ fuel start, ∀ p ∈ (chunkIntervalsF len mc ov start fuel).head?,
      p.1 = start := by
  intro fuel start p hp
  cases fuel with
  | zero => simp [chunkIntervalsF] at hp
  | succ n =>
    by_cases hs : start < len
    · by_cases he : len ≤ start + mc
      · simp [chunkIntervalsF, hs, he] at hp
        subst hp; rfl
      · simp only [chunkIntervalsF, if_pos hs, if_neg he, List.head?_cons,
          Option.mem_def, Option.some_inj] at hp
        subst hp; rfl
    · simp [chunkIntervalsF, hs] at hp

/-- Consecutive windows satisfy the spec's recurrence: the next window
starts at `end_of_previous - overlap` (truncated subtraction, i.e.
Python's `max(0, end - overlap)`). -/
theorem chunkIntervalsF_chain (len mc ov : Nat) :
    ∀ fuel start, List.Chain' (fun p q : Nat × Nat => q.1 = p.2 - ov)
      (chunkIntervalsF len mc ov start fuel) := by
  intro fuel
  induction fuel with
  | zero => intro start; simp [chunkIntervalsF]
  | succ n ih =>
    intro start
    by_cases hs : start < len
    · by_cases he : len ≤ start + mc
      · simp [chunkIntervalsF, hs, he]
      · simp only [chunkIntervalsF, if_pos hs, if_neg he]
        rw [List.chain'_cons']
        refine ⟨?_, ih _⟩
        intro q hq
        exact chunkIntervalsF_head_fst len mc ov n (start + mc - ov) q hq
    · simp [chunkIntervalsF, hs]

/-! ## Lemmas: `clean_text` fixes plain text -/

theorem replaceNul_replicate (n : Nat) :
    replaceNul (List.replicate n 'a') = List.replicate n 'a' := by
  simp [replaceNul, List.map_replicate]

theorem collapseGo_replicate (n : Nat) :
    ∀ b, collapseGo b (List.replicate n 'a') = List.replicate n 'a' := by
  induction n with
  | zero => intro b; rfl
  | succ m ih => intro b; simp [List.replicate_succ, collapseGo, isPyWS, ih]

theorem dropWhile_replicate_a (n : Nat) :
    List.dropWhile isPyWS (List.replicate n 'a') = List.replicate n 'a' := by
  cases n with
  | zero => rfl
  | succ m => simp [List.replicate_succ, List.dropWhile_cons, isPyWS]

theorem clean_text_replicate (n : Nat) :
    clean_text (List.replicate n 'a') = List.replicate n 'a' := by
  rw [clean_text, collapseWS, replaceNul_replicate,
    collapseGo_replicate n false, pyStrip, dropWhile_replicate_a,
    List.reverse_replicate, dropWhile_replicate_a, List.reverse_replicate]

/-- The concrete build scenario: a page of 2000 plain characters,
chunked with the defaults, yields exactly 2 chunks. -/
theorem chunk_text_scenario :
    (chunk_text (List.replicate 2000 'a') 1400 200).length = 2 := by
  have hclean := clean_text_replicate 2000
  rw [chunk_text, hclean]
  have h1 : (List.replicate 2000 'a').isEmpty = false := by decide
  rw [h1]
  simp only [Bool.false_eq_true, if_false, List.length_replicate]
  have h2 : ¬ (2000 ≤ 1400) := by omega
  rw [if_neg h2, chunkLoop, chunkLoopF_eq_map, List.length_map,
    List.length_replicate]
  decide

/-- Shared: above one window, `chunk_text` is the slice map of its
window intervals. -/
theorem chunk_text_eq_map_intervals (mc ov : Nat) (t : List Char)
    (hc : clean_text t = t) (hL : mc < t.length) :
    chunk_text t mc ov =
      (chunkIntervals t.length mc ov 0).map
        (fun p => (t.drop p.1).take (p.2 - p.1)) := by
  have hne : ¬ t.isEmpty = true := by
    rw [List.isEmpty_iff]
    intro h0
    rw [h0] at hL
    simp at hL
  rw [chunk_text, hc, if_neg hne, if_neg (by omega), chunkLoop_eq_map_intervals]

/-- C4: for a cleaned text longer than `max_chars`, every character
position lies in at least one produced window, every produced chunk is
at most `max_chars` long, and a cleaned non-empty text of at most
`max_chars` characters is emitted whole as a single chunk. -/
theorem chunk_text_coverage_and_bound (mc ov : Nat) (h : ov < mc)
    (t : List Char) (hc : clean_text t = t) (hL : mc < t.length) :
    chunk_text t mc ov =
      (chunkIntervals t.length mc ov 0).map
        (fun p => (t.drop p.1).take (p.2 - p.1))
    ∧ (∀ i, i < t.length →
        ∃ p ∈ chunkIntervals t.length mc ov 0, p.1 ≤ i ∧ i < p.2)
    ∧ (∀ c ∈ chunk_text t mc ov, c.length ≤ mc)
    ∧ (∀ t', clean_text t' = t' → t' ≠ [] → t'.length ≤ mc →
        chunk_text t' mc ov = [t']) := by
  have hmap := chunk_text_eq_map_intervals mc ov t hc hL
  refine ⟨hmap, ?_, ?_, ?_⟩
  · intro i hi
    rw [chunkIntervals]
    exact chunkIntervalsF_coverage t.length mc ov h (t.length - 0) 0 i
      (by omega) (by omega) hi
  · intro c hcm
    rw [hmap] at hcm
    obtain ⟨p, hp, hpc⟩ := List.mem_map.mp hcm
    have hw := (chunkIntervalsF_width t.length mc ov (t.length - 0) 0 p hp).1
    calc c.length = ((t.drop p.1).take (p.2 - p.1)).length := by rw [hpc]
      _ ≤ p.2 - p.1 := List.length_take_le _ _
      _ ≤ mc := hw
  · intro t' hc' hne' hle'
    have hne2 : ¬ t'.isEmpty = true := by
      rw [List.isEmpty_iff]; exact hne'
    rw [chunk_text, hc', if_neg hne2, if_pos hle']

/-- C4 witness: the theorem instantiated at the cleaned 5-character
text "abcde" with `max_chars = 3`, `overlap = 1`. -/
theorem chunk_text_coverage_and_bound_witness :
    chunk_text "abcde".toList 3 1 =
      (chunkIntervals ("abcde".toList).length 3 1 0).map
        (fun p => (("abcde".toList).drop p.1).take (p.2 - p.1)) :=
  (chunk_text_coverage_and_bound 3 1 (by decide) "abcde".toList
    (by decide) (by decide)).1

/-- C5: above one window, `chunk_text` is the slice map of its window
intervals, consecutive windows obey
`start_of_next = end_of_previous - overlap` (Python's
`max(0, end - overlap)`), and the concrete scenario — one page of 2000
extracted characters with the defaults `max_chars = 1400`,
`overlap = 200` — produces exactly 2 chunks. -/
theorem chunk_window_recurrence (mc ov : Nat) (h : ov < mc)
    (t : List Char) (hc : clean_text t = t) (hL : mc < t.length) :
    (chunk_text t mc ov =
      (chunkIntervals t.length mc ov 0).map
        (fun p => (t.drop p.1).take (p.2 - p.1))
     ∧ List.Chain' (fun p q : Nat × Nat => q.1 = p.2 - ov)
        (chunkIntervals t.length mc ov 0))
    ∧ (chunk_text (List.replicate 2000 'a') 1400 200).length = 2 := by
  refine ⟨⟨chunk_text_eq_map_intervals mc ov t hc hL, ?_⟩, chunk_text_scenario⟩
  rw [chunkIntervals]
  exact chunkIntervalsF_chain t.length mc ov (t.length - 0) 0

/-- C5 witness: the window recurrence at the cleaned 5-character text
"abcde" with `max_chars = 3`, `overlap = 1`. -/
theorem chunk_window_recurrence_witness :
    List.Chain' (fun p q : Nat × Nat => q.1 = p.2 - 1)
      (chunkIntervals ("abcde".toList).length 3 1 0) :=
  (chunk_window_recurrence 3 1 (by decide) "abcde".toList
    (by decide) (by decide)).1.2

/-- C7: the window loop of `chunk_text` terminates on every input —
whenever `overlap < max_chars` (as with the repo's only parameters,
the defaults 1400/200) the loop reaches its exit within
`text.length - start` iterations, so any extra fuel is unused — and a
cleaned non-empty page text shorter than `overlap` yields exactly one
chunk. -/
theorem chunk_text_terminates :
    (∀ (t : List Char) (mc ov : Nat), ov < mc →
      ∀ start extra, chunkLoopF t mc ov start ((t.length - start) + extra)
        = chunkLoop t mc ov start)
    ∧ (∀ (t : List Char) (mc ov : Nat), ov < mc → clean_text t = t →
        t ≠ [] → t.length < ov → chunk_text t mc ov = [t]) := by
  constructor
  · intro t mc ov h start extra
    rw [chunkLoop]
    exact chunkLoopF_fuel_stable t mc ov h (t.length - start) start extra
      le_rfl
  · intro t mc ov h hc hne hlt
    have hne2 : ¬ t.isEmpty = true := by
      rw [List.isEmpty_iff]; exact hne
    rw [chunk_text, hc, if_neg hne2, if_pos (by omega)]

/-- C7 witness: fuel stability at "abc" with 7 units of extra fuel, and
the one-chunk edge case for a 1-character page with `overlap = 2`. -/
theorem chunk_text_terminates_witness :
    chunkLoopF "abc".toList 2 1 0 ((("abc".toList).length - 0) + 7)
        = chunkLoop "abc".toList 2 1 0
    ∧ chunk_text "a".toList 3 2 = ["a".toList] :=
  ⟨chunk_text_terminates.1 "abc".toList 2 1 (by decide) 0 7,
   chunk_text_terminates.2 "a".toList 3 2 (by decide) (by decide)
     (by decide) (by decide)⟩

/-- C1: the confidence gate.  The handler returns the NOT FOUND outcome
carrying the best observed score (0 for an empty evidence list) exactly
when the evidence list is empty or its top score is below `MIN_SCORE`
(so a top score of exactly 0.22 passes, the comparison being strict
`<`); on failure the outcome does not depend on the credential, the
external call, or the links database — neither the answerer nor the
link matcher is invoked. -/
theorem confidence_gate (ak : Option (List Char))
    (call : Except (List Char) (Option (List Char)))
    (db : List Scheme) (ev : List Evidence) :
    (handle_query ak call db ev = Outcome.notFound (best_score ev)
      ↔ (ev = [] ∨ best_score ev < MIN_SCORE))
    ∧ best_score [] = 0
    ∧ (∀ e rest, best_score (e :: rest) = e.score)
    ∧ ((ev = [] ∨ best_score ev < MIN_SCORE) →
        ∀ ak' call' db',
          handle_query ak call db ev = handle_query ak' call' db' ev) := by
  refine ⟨⟨?_, ?_⟩, rfl, fun e rest => rfl, ?_⟩
  · intro heq
    by_cases hcond : ev = [] ∨ best_score ev < MIN_SCORE
    · exact hcond
    · exfalso
      rw [handle_query, if_neg hcond] at heq
      cases hl : llm_answer ak call with
      | error e => rw [hl] at heq; exact Outcome.noConfusion heq
      | ok a => rw [hl] at heq; exact Outcome.noConfusion heq
  · intro hcond
    rw [handle_query, if_pos hcond]
  · intro hcond ak' call' db'
    rw [handle_query, if_pos hcond, handle_query, if_pos hcond]

/-- C1 witness: empty evidence short-circuits to NOT FOUND with best
score 0; a top score of exactly 0.22 does not produce NOT FOUND
(inclusive threshold). -/
theorem confidence_gate_witness :
    handle_query none (Except.ok none) [] [] = Outcome.notFound 0
    ∧ handle_query none (Except.ok none) []
        [(⟨22 / 100, ['d'], ['f'], 1, ['t']⟩ : Evidence)]
      ≠ Outcome.notFound
          (best_score [(⟨22 / 100, ['d'], ['f'], 1, ['t']⟩ : Evidence)]) := by
  constructor
  · exact (confidence_gate none (Except.ok none) [] []).1.mpr (Or.inl rfl)
  · intro heq
    rcases (confidence_gate none (Except.ok none) []
        [(⟨22 / 100, ['d'], ['f'], 1, ['t']⟩ : Evidence)]).1.mp heq with h | h
    · exact List.noConfusion h
    · norm_num [best_score, MIN_SCORE] at h

/-- C9: `load_index_and_meta` fails exactly when the persisted faiss
index or the metadata parquet is missing, always with the one distinct
remediation message (which is non-empty and names the offline build
step `build_data.py`); when both artifacts exist the load succeeds. -/
theorem load_index_not_built (fe me : Bool) (index : List (List ℚ))
    (meta : List MetaRow) :
    ((∃ e, load_index_and_meta fe me index meta = Except.error e)
      ↔ (fe = false ∨ me = false))
    ∧ (∀ e, load_index_and_meta fe me index meta = Except.error e →
        e = INDEX_NOT_BUILT_MSG)
    ∧ hasSub "build_data.py".toList INDEX_NOT_BUILT_MSG = true
    ∧ INDEX_NOT_BUILT_MSG ≠ [] := by
  refine ⟨?_, ?_, by decide, by decide⟩
  · cases fe <;> cases me <;> simp [load_index_and_meta]
  · intro e he
    cases fe <;> cases me <;> simp [load_index_and_meta] at he <;>
      exact he.symm

/-- C9 witness: a missing faiss index file makes the load fail. -/
theorem load_index_not_built_witness :
    ∃ e, load_index_and_meta false true [] [] = Except.error e :=
  (load_index_not_built false true [] []).1.mpr (Or.inl rfl)

/-- C8: after a build, the vector index and the metadata store have the
same length, and the vector at position `i` is the embedding of the
text of metadata row `i` — the positional join is exact. -/
theorem build_join_integrity (f : List Char → List ℚ) (pdfs : List SrcDoc) :
    (buildIndex f (buildRows pdfs)).length = (buildRows pdfs).length
    ∧ ∀ i, i < (buildRows pdfs).length →
        (buildIndex f (buildRows pdfs)).getD i []
          = f (((buildRows pdfs).getD i (default : MetaRow)).text) := by
  constructor
  · simp [buildIndex, encode]
  · intro i hi
    rw [List.getD_eq_getElem?_getD, List.getD_eq_getElem?_getD, buildIndex,
      encode, List.getElem?_map, List.getElem?_map,
      List.getElem?_eq_getElem hi]
    simp

/-- C8 witness: the join integrity at a one-document, one-page corpus
and the length-valued embedder. -/
theorem build_join_integrity_witness :
    (buildIndex (fun t => [(t.length : ℚ)])
        (buildRows [(⟨[], [], [(1, ['h'])]⟩ : SrcDoc)])).length
      = (buildRows [(⟨[], [], [(1, ['h'])]⟩ : SrcDoc)]).length
    ∧ (buildIndex (fun t => [(t.length : ℚ)])
        (buildRows [(⟨[], [], [(1, ['h'])]⟩ : SrcDoc)])).getD 0 []
      = (fun t => [(t.length : ℚ)])
          (((buildRows [(⟨[], [], [(1, ['h'])]⟩ : SrcDoc)]).getD 0
            (default : MetaRow)).text) :=
  ⟨(build_join_integrity _ _).1, (build_join_integrity _ _).2 0 (by decide)⟩

/-! ## Lemmas: the descending sort of search hits -/

theorem mem_insertDesc (p x : Nat × ℚ) :
    ∀ l, x ∈ insertDesc p l ↔ x = p ∨ x ∈ l := by
  intro l
  induction l with
  | nil => simp [insertDesc]
  | cons q qs ih =>
    by_cases hq : q.2 ≤ p.2
    · simp only [insertDesc, if_pos hq, List.mem_cons]
    · simp only [insertDesc, if_neg hq, List.mem_cons, ih]
      tauto

theorem pairwise_insertDesc (p : Nat × ℚ) (l : List (Nat × ℚ))
    (hl : List.Pairwise (fun a b : Nat × ℚ => b.2 ≤ a.2) l) :
    List.Pairwise (fun a b : Nat × ℚ => b.2 ≤ a.2) (insertDesc p l) := by
  induction l with
  | nil => simp [insertDesc]
  | cons q qs ih =>
    rcases List.pairwise_cons.mp hl with ⟨hq, hqs⟩
    by_cases hcmp : q.2 ≤ p.2
    · simp only [insertDesc, if_pos hcmp]
      refine List.pairwise_cons.mpr ⟨?_, hl⟩
      intro b hb
      rcases List.mem_cons.mp hb with rfl | hb
      · exact hcmp
      · exact le_trans (hq b hb) hcmp
    · simp only [insertDesc, if_neg hcmp]
      refine List.pairwise_cons.mpr ⟨?_, ih hqs⟩
      intro b hb
      rcases (mem_insertDesc p b qs).mp hb with rfl | hb
      · exact le_of_lt (lt_of_not_le hcmp)
      · exact hq b hb

theorem pairwise_sortDesc (l : List (Nat × ℚ)) :
    List.Pairwise (fun a b : Nat × ℚ => b.2 ≤ a.2) (sortDesc l) := by
  rw [sortDesc]
  induction l with
  | nil => simp
  | cons q qs ih => exact pairwise_insertDesc q _ ih

/-- C2: `retrieve` returns at most `top_k` evidence items, their scores
are non-increasing by position, and every item is the positional join
of a search hit against the metadata store. -/
theorem retrieve_contract (vecs : List (List ℚ)) (meta : List MetaRow)
    (qvec : List ℚ) (top_k : Nat) (h : 1 ≤ top_k) :
    (retrieve vecs meta qvec top_k).length ≤ top_k
    ∧ List.Pairwise (fun a b : Evidence => b.score ≤ a.score)
        (retrieve vecs meta qvec top_k)
    ∧ ∀ e ∈ retrieve vecs meta qvec top_k,
        ∃ p ∈ indexSearch vecs qvec top_k,
          e = evidenceOfRow p.2 (meta.getD p.1 (default : MetaRow)) := by
  have hpw : List.Pairwise (fun a b : Nat × ℚ => b.2 ≤ a.2)
      (indexSearch vecs qvec top_k) := by
    rw [indexSearch]
    exact List.Pairwise.sublist (List.take_sublist _ _) (pairwise_sortDesc _)
  refine ⟨?_, ?_, ?_⟩
  · rw [retrieve, List.length_map, indexSearch]
    exact List.length_take_le _ _
  · rw [retrieve, List.pairwise_map]
    exact hpw.imp (fun hab => hab)
  · intro e he
    rw [retrieve] at he
    obtain ⟨p, hp, rfl⟩ := List.mem_map.mp he
    exact ⟨p, hp, rfl⟩

/-- C2 witness: the contract applied to a one-vector index with
`top_k = 1`. -/
theorem retrieve_contract_witness :
    1 ≤ 1 ∧ (retrieve [[1]] [(default : MetaRow)] [1] 1).length ≤ 1 :=
  ⟨le_rfl, (retrieve_contract [[1]] [(default : MetaRow)] [1] 1 le_rfl).1⟩

/-! ## Lemmas: the link matcher -/

/-- Python's `if xs and any(...)` guard is redundant: `any` over an
empty list is already false. -/
theorem guard_any {α : Type} (l : List α) (p : α → Bool) :
    (!l.isEmpty && l.any p) = l.any p := by
  cases l <;> rfl

theorem any_map_general {α β : Type} (f : α → β) (p : β → Bool) :
    ∀ l : List α, (l.map f).any p = l.any fun a => p (f a) := by
  intro l
  induction l with
  | nil => rfl
  | cons a l ih => simp [List.any_cons, ih]

theorem if_bool_or (b c : Bool) : (if b = true then true else c) = (b || c) := by
  cases b <;> simp

theorem isEmpty_map_eq {α β : Type} (f : α → β) (l : List α) :
    (l.map f).isEmpty = l.isEmpty := by
  cases l <;> rfl

/-- The source's `elif` chain computes exactly the spec's disjunction
of the three rules. -/
theorem schemeFound_eq_ruleMatchSpec (ev : List Evidence) (s : Scheme) :
    schemeFound (ev.map fun e => lower e.doc_id)
      (ev.map fun e => lower e.file_name) s = ruleMatchSpec ev s := by
  simp only [schemeFound, ruleMatchSpec, if_bool_or, isEmpty_map_eq,
    guard_any, any_map_general, List.contains_eq_any_beq, Bool.or_assoc]

/-- A Bool `any` over a list depends only on membership. -/
theorem any_membership_ext {α : Type} (l1 l2 : List α)
    (hm : ∀ x, x ∈ l1 ↔ x ∈ l2) (p : α → Bool) : l1.any p = l2.any p := by
  rw [Bool.eq_iff_iff, List.any_eq_true, List.any_eq_true]
  constructor
  · rintro ⟨x, hx, hp⟩
    exact ⟨x, (hm x).mp hx, hp⟩
  · rintro ⟨x, hx, hp⟩
    exact ⟨x, (hm x).mpr hx, hp⟩

/-- The per-entry rules read the evidence id lists only through
membership. -/
theorem schemeFound_ext (d1 d2 f1 f2 : List (List Char))
    (hd : ∀ x, x ∈ d1 ↔ x ∈ d2) (hf : ∀ x, x ∈ f1 ↔ x ∈ f2) (s : Scheme) :
    schemeFound d1 f1 s = schemeFound d2 f2 s := by
  have hc1 : (fun d => d1.contains d) = (fun d => d2.contains d) := by
    funext d
    rw [List.contains_eq_any_beq, List.contains_eq_any_beq]
    exact any_membership_ext d1 d2 hd _
  have hc2 : (fun f => f1.contains f) = (fun f => f2.contains f) := by
    funext f
    rw [List.contains_eq_any_beq, List.contains_eq_any_beq]
    exact any_membership_ext f1 f2 hf _
  have hc3 : ∀ sn, (f1.any fun f => hasSub sn f) = (f2.any fun f => hasSub sn f) :=
    fun sn => any_membership_ext f1 f2 hf _
  simp only [schemeFound, hc1, hc2, hc3]

/-- C3 (amended): the matcher's output is exactly the in-order filter
of the links database by the three rules (the `elif` chain equals the
spec's disjunction), hence a subsequence of the database in original
order, duplicate-free whenever the database itself is; each rule is
independently sufficient for inclusion; an empty database yields an
empty result. -/
theorem link_matcher (db : List Scheme) (ev : List Evidence) :
    match_links_from_evidence db ev = db.filter (ruleMatchSpec ev)
    ∧ (match_links_from_evidence db ev).Sublist db
    ∧ (db.Nodup → (match_links_from_evidence db ev).Nodup)
    ∧ (∀ s ∈ db,
        (s.doc_ids.any fun d => ev.any fun e => lower d == lower e.doc_id)
          = true → s ∈ match_links_from_evidence db ev)
    ∧ (∀ s ∈ db,
        (s.file_names.any fun f => ev.any fun e => lower f == lower e.file_name)
          = true → s ∈ match_links_from_evidence db ev)
    ∧ (∀ s ∈ db,
        (!(lower s.scheme_name).isEmpty &&
          (ev.any fun e => hasSub (lower s.scheme_name) (lower e.file_name)))
          = true → s ∈ match_links_from_evidence db ev)
    ∧ (db = [] → match_links_from_evidence db ev = []) := by
  have hfe : match_links_from_evidence db ev = db.filter (ruleMatchSpec ev) := by
    rw [match_links_from_evidence]
    by_cases hdb : db.isEmpty = true
    · rw [if_pos hdb]
      rw [List.isEmpty_iff] at hdb
      rw [hdb, List.filter_nil]
    · rw [if_neg hdb]
      exact List.filter_congr fun s _ => schemeFound_eq_ruleMatchSpec ev s
  refine ⟨hfe, ?_, ?_, ?_, ?_, ?_, ?_⟩
  · rw [hfe]
    exact List.filter_sublist db
  · intro hnd
    rw [hfe]
    exact List.Nodup.filter _ hnd
  · intro s hs hrule
    rw [hfe, List.mem_filter]
    refine ⟨hs, ?_⟩
    rw [ruleMatchSpec, hrule]
    simp
  · intro s hs hrule
    rw [hfe, List.mem_filter]
    refine ⟨hs, ?_⟩
    rw [ruleMatchSpec, hrule]
    simp
  · intro s hs hrule
    rw [hfe, List.mem_filter]
    refine ⟨hs, ?_⟩
    rw [ruleMatchSpec, hrule]
    simp
  · intro hdb
    rw [hfe, hdb, List.filter_nil]

/-- C3 counterexample: against a links database that itself contains a
duplicate entry, the matcher's output (being a filter) repeats that
entry, so the output of the source is not unconditionally
duplicate-free as the claim states. -/
theorem link_matcher_nodup_cex :
    ¬ (match_links_from_evidence
        [(⟨['s'], ['n'], [], [], [], [['d']], []⟩ : Scheme),
         (⟨['s'], ['n'], [], [], [], [['d']], []⟩ : Scheme)]
        [(⟨1, ['d'], ['f'], 1, []⟩ : Evidence)]).Nodup := by decide

/-- C3 witness: at a duplicate-free one-entry database matched through
its `doc_ids`, the output is duplicate-free. -/
theorem link_matcher_witness :
    (match_links_from_evidence
        [(⟨['s'], ['n'], [], [], [], [['d']], []⟩ : Scheme)]
        [(⟨1, ['d'], ['f'], 1, []⟩ : Evidence)]).Nodup :=
  (link_matcher _ _).2.2.1 (by decide)

/-- C10: the matcher's output depends only on the sets of lowercased
`doc_id` and `file_name` values in the evidence — two evidence lists
agreeing on those two sets (whatever their scores, texts, page numbers,
order, or multiplicity) produce identical results against any links
database. -/
theorem matcher_set_extensional (db : List Scheme) (ev1 ev2 : List Evidence)
    (hdoc : ∀ x, x ∈ ev1.map (fun e => lower e.doc_id)
      ↔ x ∈ ev2.map (fun e => lower e.doc_id))
    (hfile : ∀ x, x ∈ ev1.map (fun e => lower e.file_name)
      ↔ x ∈ ev2.map (fun e => lower e.file_name)) :
    match_links_from_evidence db ev1 = match_links_from_evidence db ev2 := by
  rw [match_links_from_evidence, match_links_from_evidence]
  by_cases hdb : db.isEmpty = true
  · rw [if_pos hdb, if_pos hdb]
  · rw [if_neg hdb, if_neg hdb]
    exact List.filter_congr fun s _ => schemeFound_ext _ _ _ _ hdoc hfile s

/-- C10 witness: two evidence lists with the same id sets but different
scores, texts, page numbers, order and multiplicity give the same
matches. -/
theorem matcher_set_extensional_witness :
    match_links_from_evidence
        [(⟨['s'], ['n'], [], [], [], [['d']], []⟩ : Scheme)]
        [(⟨1, ['d'], ['f'], 1, []⟩ : Evidence),
         (⟨2, ['d'], ['f'], 2, ['t']⟩ : Evidence),
         (⟨1, ['d'], ['f'], 1, []⟩ : Evidence)]
      = match_links_from_evidence
        [(⟨['s'], ['n'], [], [], [], [['d']], []⟩ : Scheme)]
        [(⟨2, ['d'], ['f'], 2, ['t']⟩ : Evidence),
         (⟨1, ['d'], ['f'], 1, []⟩ : Evidence)] :=
  matcher_set_extensional _ _ _ (fun x => by simp [List.map_cons])
    (fun x => by simp [List.map_cons])

/-! ## C6: answerer error handling -/

/-- C6 counterexample: with the credential present and the external
call raising, the run ends in the uncaught exception — no user-visible
message string is produced and link matching never runs (the crash
outcome carries no links); and a successful call whose response text is
`None` is shown as an empty successful answer.  Both contradict the
claim's "every non-success yields a non-empty message, never empty
success, with link matching proceeding regardless". -/
theorem llm_failure_cex :
    handle_query (some ['k']) (Except.error ['b'])
        [(⟨['s'], ['n'], [], [], [], [['d']], []⟩ : Scheme)]
        [(⟨1, ['d'], ['f'], 1, []⟩ : Evidence)]
      = Outcome.crashed ['b']
    ∧ handle_query (some ['k']) (Except.ok none) []
        [(⟨1, ['d'], ['f'], 1, []⟩ : Evidence)]
      = Outcome.shown [] [] := by
  have hgate : ¬ ([(⟨1, ['d'], ['f'], 1, []⟩ : Evidence)] = ([] : List Evidence)
      ∨ best_score [(⟨1, ['d'], ['f'], 1, []⟩ : Evidence)] < MIN_SCORE) := by
    rintro (h | h)
    · exact List.noConfusion h
    · norm_num [best_score, MIN_SCORE] at h
  constructor
  · rw [handle_query, if_neg hgate]
    rfl
  · rw [handle_query, if_neg hgate]
    rfl

/-- C6 (amended): a missing credential is returned as the fixed
non-empty message in place of the narrative answer, and link matching
still proceeds on the computed evidence (only the answer slot differs
from the success path); but an exception from the external call is not
caught — it propagates and aborts the run before link matching — and a
successful call's (possibly empty) stripped text is shown verbatim as
the answer. -/
theorem llm_error_handling (call : Except (List Char) (Option (List Char)))
    (db : List Scheme) (ev : List Evidence)
    (hgate : ¬ (ev = [] ∨ best_score ev < MIN_SCORE)) :
    (llm_answer none call = Except.ok GEMINI_MISSING_MSG
      ∧ GEMINI_MISSING_MSG ≠ []
      ∧ handle_query none call db ev
          = Outcome.shown GEMINI_MISSING_MSG (match_links_from_evidence db ev))
    ∧ (∀ k exc, handle_query (some k) (Except.error exc) db ev
        = Outcome.crashed exc)
    ∧ (∀ k txt, handle_query (some k) (Except.ok (some txt)) db ev
        = Outcome.shown (pyStrip txt) (match_links_from_evidence db ev)) := by
  refine ⟨⟨rfl, by decide, ?_⟩, ?_, ?_⟩
  · rw [handle_query, if_neg hgate]
    rfl
  · intro k exc
    rw [handle_query, if_neg hgate]
    rfl
  · intro k txt
    rw [handle_query, if_neg hgate]
    rfl

/-- C6 witness: the amended theorem's credential-missing path at
gate-passing evidence. -/
theorem llm_error_handling_witness :
    handle_query none (Except.ok none) []
        [(⟨1, ['d'], ['f'], 1, []⟩ : Evidence)]
      = Outcome.shown GEMINI_MISSING_MSG
          (match_links_from_evidence []
            [(⟨1, ['d'], ['f'], 1, []⟩ : Evidence)]) :=
  (llm_error_handling (Except.ok none) []
    [(⟨1, ['d'], ['f'], 1, []⟩ : Evidence)]
    (by
      rintro (h | h)
      · exact List.noConfusion h
      · norm_num [best_score, MIN_SCORE] at h)).1.2.2

/-! ## Sanity checks of the embedding against the source's behaviour -/

example : chunk_text "abcdef".toList 3 1 =
    ["abc".toList, "cde".toList, "ef".toList] := by decide

example : chunk_text "  a   b ".toList 3 1 = ["a b".toList] := by decide

example : clean_text "a\x00\n\t b".toList = "a b".toList := by decide

example : hasSub "go 43".toList "ap go 43 2024.pdf".toList = true := by decide

example : lower "GO_43.PDF".toList = "go_43.pdf".toList := by decide
